import Mathlib

/-
Verification of the autoregressive decode loops of this repository.

The repository drives three incremental token-generation loops:

* `audio_processing/kotoba-whisper/kotoba-whisper.py` — `greedy_search`:
  a greedy ASR decoder with a pipeline of logits processors
  (fixed suppression, begin-step suppression, Whisper timestamp pairing,
  timestamp monotonicity, first-step timestamp forcing, and a
  timestamp-probability-mass rule), per-row finished flags and a
  `stopping_criteria` combining a max-length cap with an eos check.

* `audio_processing/gpt-sovits/gpt-sovits.py` — `T2SModel.forward`:
  the acoustic decoder, a `for idx in range(1, 1500)` loop around an
  opaque stage decoder, with a duration-derived early stop
  (`early_stop_num = hz * max_sec`, `hz = 50`) and an EOS test, followed
  by zeroing of the last position and truncation to the last `idx` slots.

* `multimodal_language_model/qwen_audio/qwen_audio.py` — `sample`:
  a stochastic chat decoder with `stopping_criteria` capping the total
  length at 310 with eos id 7.

Scores are embedded as `WithBot ℚ` (⊥ plays the role of `-inf` used by
the numpy masking code; the finite float values are idealised as
rationals).  Token histories are lists of naturals.  The network calls
(`decode`, `stage_decoder`, `forward`) are opaque external collaborators
and enter the embedding as function parameters ("stubs").
-/

set_option maxHeartbeats 1000000

/-- A single score entry: a finite value or `-inf` (numpy's masking value). -/
abbrev Score := WithBot ℚ

/-- One row of the per-step score matrix, indexed by vocabulary id. -/
abbrev Row := ℕ → Score

/-- `np.argmax` over the first `V` entries of a row: the FIRST index of the
maximum (ties resolve to the lowest vocabulary id). -/
def argmaxRow (s : Row) (V : ℕ) : ℕ :=
  (List.range V).foldl (fun best i => if s best < s i then i else best) 0

theorem argmaxRow_zero (s : Row) : argmaxRow s 0 = 0 := rfl

theorem argmaxRow_succ (s : Row) (V : ℕ) :
    argmaxRow s (V + 1) =
      (if s (argmaxRow s V) < s V then V else argmaxRow s V) := by
  unfold argmaxRow
  rw [List.range_succ, List.foldl_append]
  rfl

theorem argmaxRow_lt (s : Row) (V : ℕ) (hV : 0 < V) : argmaxRow s V < V := by
  induction V with
  | zero => exact absurd hV (lt_irrefl 0)
  | succ n ih =>
    rw [argmaxRow_succ]
    by_cases h : s (argmaxRow s n) < s n
    · simp [h]
    · rcases Nat.eq_zero_or_pos n with h0 | hn
      · subst h0
        simp [h, argmaxRow_zero]
      · simp only [h, if_false]
        exact Nat.lt_succ_of_lt (ih hn)

theorem le_argmaxRow (s : Row) (V : ℕ) :
    ∀ i, i < V → s i ≤ s (argmaxRow s V) := by
  induction V with
  | zero => intro i hi; exact absurd hi (Nat.not_lt_zero i)
  | succ n ih =>
    intro i hi
    rw [argmaxRow_succ]
    by_cases h : s (argmaxRow s n) < s n
    · simp only [h, if_true]
      rcases Nat.lt_succ_iff_lt_or_eq.mp hi with hlt | heq
      · exact le_of_lt (lt_of_le_of_lt (ih i hlt) h)
      · subst heq; exact le_refl _
    · simp only [h, if_false]
      rcases Nat.lt_succ_iff_lt_or_eq.mp hi with hlt | heq
      · exact ih i hlt
      · subst heq; exact le_of_not_lt h

theorem argmaxRow_eq_of (s : Row) (V j : ℕ) (hj : j < V)
    (hmax : ∀ i, i < V → s i ≤ s j) (hfirst : ∀ i, i < j → s i < s j) :
    argmaxRow s V = j := by
  induction V with
  | zero => exact absurd hj (Nat.not_lt_zero j)
  | succ n ih =>
    rw [argmaxRow_succ]
    rcases Nat.lt_succ_iff_lt_or_eq.mp hj with hlt | heq
    · have hn : argmaxRow s n = j :=
        ih hlt (fun i hi => hmax i (Nat.lt_succ_of_lt hi))
      have hnle : s n ≤ s j := hmax n (Nat.lt_succ_self n)
      rw [hn, if_neg (not_lt.mpr hnle)]
    · subst heq
      rcases Nat.eq_zero_or_pos j with h0 | hn
      · subst h0; simp [argmaxRow_zero]
      · have hb : argmaxRow s j < j := argmaxRow_lt s j hn
        rw [if_pos (hfirst _ hb)]

/-- If some entry below `V` is not `-inf`, the argmax entry is not `-inf`. -/
theorem argmaxRow_ne_bot (s : Row) (V j : ℕ) (hj : j < V) (hb : s j ≠ ⊥) :
    s (argmaxRow s V) ≠ ⊥ := by
  intro h
  exact hb (le_bot_iff.mp (h ▸ le_argmaxRow s V j hj))

/-- `np.argmax` of an all-masked row is index 0 (numpy returns the first
index of the maximum, and all entries are equal). -/
theorem argmaxRow_all_bot (s : Row) (V : ℕ) (h : ∀ i, i < V → s i = ⊥) :
    argmaxRow s V = 0 := by
  induction V with
  | zero => rfl
  | succ n ih =>
    rw [argmaxRow_succ, ih (fun i hi => h i (Nat.lt_succ_of_lt hi))]
    rw [if_neg]
    rw [h n (Nat.lt_succ_self n)]
    exact not_lt_bot

namespace KW

/- Constants of `greedy_search` (kotoba-whisper.py, lines 226-246) and
`stopping_criteria` (lines 210-222). -/

def padTokenId : ℕ := 50257

def suppressTokens : List ℕ :=
  [1, 2, 7, 8, 9, 10, 14, 25, 26, 27,
   28, 29, 31, 58, 59, 60, 61, 62, 63, 90,
   91, 92, 93, 359, 503, 522, 542, 873, 893, 902,
   918, 922, 931, 1350, 1853, 1982, 2460, 2627, 3246, 3253,
   3268, 3536, 3846, 3961, 4183, 4667, 6585, 6647, 7273, 9061,
   9383, 10428, 10929, 11938, 12033, 12331, 12562, 13793, 14157, 14635,
   15265, 15618, 16553, 16604, 18362, 18956, 20075, 21675, 22520, 26130,
   26161, 26435, 28279, 29464, 31650, 32302, 32470, 36865, 42863, 47425,
   49870, 50254, 50258, 50359, 50360, 50361, 50362, 50363]

def beginIndex : ℕ := 3

def beginSuppressTokens : List ℕ := [220, 50257]

def noTimestampsTokenId : ℕ := 50364

def timestampBegin : ℕ := 50365

def eosTokenId : ℕ := 50257

def maxInitialTimestampIndex : ℕ := 50

def maxLength : ℕ := 448

/-- `next_tokens_scores[:, suppress_tokens] = -inf` (line 269). -/
def suppressStep (s : Row) : Row :=
  fun i => if i ∈ suppressTokens then ⊥ else s i

/-- `if input_ids.shape[1] == begin_index: scores[:, begin_suppress] = -inf`
(lines 271-272); `curLen` is `input_ids.shape[1]` before this step's append. -/
def beginSuppressStep (curLen : ℕ) (s : Row) : Row :=
  fun i => if curLen = beginIndex ∧ i ∈ beginSuppressTokens then ⊥ else s i

/-- `next_tokens_scores[:, no_timestamps_token_id] = -inf` (line 275). -/
def noTimestampsStep (s : Row) : Row :=
  fun i => if i = noTimestampsTokenId then ⊥ else s i

/-- `last_was_timestamp = len(seq) >= 1 and seq[-1] >= timestamp_begin`
(line 281); `seq` is the generated history `input_ids[k, begin_index:]`. -/
def lastWasTimestamp (seq : List ℕ) : Bool :=
  match seq.getLast? with
  | some t => decide (timestampBegin ≤ t)
  | none => false

/-- `penultimate_was_timestamp = len(seq) < 2 or seq[-2] >= timestamp_begin`
(line 282). -/
def penultimateWasTimestamp (seq : List ℕ) : Bool :=
  if seq.length < 2 then true
  else
    match seq.dropLast.getLast? with
    | some t => decide (timestampBegin ≤ t)
    | none => true

/-- The timestamp-pairing branch of the `WhisperTimeStampLogitsProcessor`
port (lines 284-288): when the last generated token is a timestamp, either
mask the whole timestamp range (the penultimate one was a timestamp too, so
the next token has to be a non-timestamp), or mask everything below
`eos_token_id` (the next token cannot be a normal text token). -/
def pairStep (seq : List ℕ) (s : Row) : Row :=
  fun i =>
    if lastWasTimestamp seq then
      if penultimateWasTimestamp seq then
        if timestampBegin ≤ i then ⊥ else s i
      else
        if i < eosTokenId then ⊥ else s i
    else s i

/-- The timestamp monotonicity mask (lines 290-302): with `timestamps` the
timestamp tokens of the history, mask `[timestamp_begin, timestamp_last)`
where `timestamp_last` is the last seen timestamp, bumped by one unless the
history ends in an unpaired timestamp. -/
def monotStep (seq : List ℕ) (s : Row) : Row :=
  fun i =>
    match (seq.filter (fun t => decide (timestampBegin ≤ t))).getLast? with
    | none => s i
    | some lastT =>
        let timestampLast :=
          if lastWasTimestamp seq && !penultimateWasTimestamp seq then lastT
          else lastT + 1
        if timestampBegin ≤ i ∧ i < timestampLast then ⊥ else s i

/-- The `max_initial_timestamp` block (lines 303-309): at the begin step,
mask everything below `timestamp_begin` and everything above
`timestamp_begin + max_initial_timestamp_index`. -/
def beginTsStep (curLen : ℕ) (s : Row) : Row :=
  fun i =>
    if curLen = beginIndex ∧
        (i < timestampBegin ∨ timestampBegin + maxInitialTimestampIndex < i)
      then ⊥ else s i

/-- The timestamp-probability-mass mask (lines 310-316): `c` is the row's
evaluated comparison `logsumexp(logprobs[timestamp_begin:]) >
max(logprobs[:timestamp_begin])`; when it holds, every entry below
`timestamp_begin` is masked. -/
def lseMaskStep (c : Bool) (s : Row) : Row :=
  fun i => if i < timestampBegin ∧ c = true then ⊥ else s i

/-- The full per-row logits-processor pipeline of `greedy_search`
(lines 268-316), in source order.  `curLen` is `input_ids.shape[1]` when
the scores are processed, `seq` is the row's generated history
`input_ids[k, begin_index:]`, and `c` is the row's evaluated
timestamp-probability-mass condition (see `tsMassExceeds`). -/
def processRow (curLen : ℕ) (seq : List ℕ) (c : Bool) (s : Row) : Row :=
  lseMaskStep c
    (beginTsStep curLen
      (monotStep seq
        (pairStep seq
          (noTimestampsStep
            (beginSuppressStep curLen
              (suppressStep s))))))

/- Each processor only masks: a `-inf` entry stays `-inf`. -/

theorem pairStep_bot (seq : List ℕ) (s : Row) (i : ℕ) (h : s i = ⊥) :
    pairStep seq s i = ⊥ := by
  unfold pairStep
  split <;> [skip; exact h]
  split <;> split <;> simp [h]

theorem monotStep_bot (seq : List ℕ) (s : Row) (i : ℕ) (h : s i = ⊥) :
    monotStep seq s i = ⊥ := by
  unfold monotStep
  cases hm : (seq.filter (fun t => decide (timestampBegin ≤ t))).getLast? with
  | none => simp [hm, h]
  | some lastT => simp [hm, h]

theorem beginTsStep_bot (curLen : ℕ) (s : Row) (i : ℕ) (h : s i = ⊥) :
    beginTsStep curLen s i = ⊥ := by
  unfold beginTsStep
  split <;> simp [h]

theorem lseMaskStep_bot (c : Bool) (s : Row) (i : ℕ) (h : s i = ⊥) :
    lseMaskStep c s i = ⊥ := by
  unfold lseMaskStep
  split <;> simp [h]

end KW

namespace KW

/- Pointwise facts about the pipeline, read off the source order of
`greedy_search`. -/

theorem suppress_all_le : ∀ x ∈ suppressTokens, x ≤ 50363 := by decide

/-- At the begin step every entry below `timestamp_begin` is masked
(line 305), and the mass mask afterwards cannot unmask it. -/
theorem processRow_begin_low (seq : List ℕ) (c : Bool) (s : Row) (i : ℕ)
    (hi : i < timestampBegin) :
    processRow beginIndex seq c s i = ⊥ := by
  unfold processRow
  apply lseMaskStep_bot
  unfold beginTsStep
  rw [if_pos ⟨rfl, Or.inl hi⟩]

/-- At the begin step every entry above
`timestamp_begin + max_initial_timestamp_index` is masked (lines 307-309). -/
theorem processRow_begin_high (seq : List ℕ) (c : Bool) (s : Row) (i : ℕ)
    (hi : timestampBegin + maxInitialTimestampIndex < i) :
    processRow beginIndex seq c s i = ⊥ := by
  unfold processRow
  apply lseMaskStep_bot
  unfold beginTsStep
  rw [if_pos ⟨rfl, Or.inr hi⟩]

/-- At the begin step (empty generated history) the initial-timestamp window
`[timestamp_begin, timestamp_begin + max_initial_timestamp_index]` passes
through every processor untouched. -/
theorem processRow_begin_mid (c : Bool) (s : Row) (i : ℕ)
    (hlo : timestampBegin ≤ i)
    (hhi : i ≤ timestampBegin + maxInitialTimestampIndex) :
    processRow beginIndex [] c s i = s i := by
  have h3 : (50365 : ℕ) ≤ i := hlo
  have h4 : i ≤ 50415 := hhi
  have h1 : i ∉ suppressTokens := by
    intro hmem
    have h2 := suppress_all_le i hmem
    omega
  have hbs : i ∉ beginSuppressTokens := by
    intro hmem
    have h5 : i = 220 ∨ i = 50257 := by
      simpa [beginSuppressTokens] using hmem
    omega
  have hno : i ≠ noTimestampsTokenId := by
    intro hmem
    rw [hmem] at h3
    exact absurd h3 (by decide)
  have hnb : ¬ i < timestampBegin := not_lt.mpr hlo
  have hnh : ¬ timestampBegin + maxInitialTimestampIndex < i := not_lt.mpr hhi
  simp only [processRow, lseMaskStep, beginTsStep, monotStep, pairStep,
    noTimestampsStep, beginSuppressStep, suppressStep, lastWasTimestamp,
    List.filter_nil, List.getLast?_nil]
  simp [h1, hbs, hno, hnb, hnh]

/-- The `no_timestamps_token_id` entry is masked at every step (line 275),
and no later processor unmasks it. -/
theorem processRow_noTimestamps (curLen : ℕ) (seq : List ℕ) (c : Bool)
    (s : Row) : processRow curLen seq c s noTimestampsTokenId = ⊥ := by
  unfold processRow
  apply lseMaskStep_bot
  apply beginTsStep_bot
  apply monotStep_bot
  apply pairStep_bot
  unfold noTimestampsStep
  rw [if_pos rfl]

/-- Pairing, both-timestamps branch (line 286): the whole timestamp range is
masked, and stays masked through the remaining processors. -/
theorem processRow_pair_both (curLen : ℕ) (seq : List ℕ) (c : Bool) (s : Row)
    (i : ℕ) (h1 : lastWasTimestamp seq = true)
    (h2 : penultimateWasTimestamp seq = true) (hi : timestampBegin ≤ i) :
    processRow curLen seq c s i = ⊥ := by
  unfold processRow
  apply lseMaskStep_bot
  apply beginTsStep_bot
  apply monotStep_bot
  simp [pairStep, h1, h2, hi]

/-- Pairing, unpaired-timestamp branch (line 288): everything below
`eos_token_id` is masked, and stays masked through the remaining
processors. -/
theorem processRow_pair_unpaired (curLen : ℕ) (seq : List ℕ) (c : Bool)
    (s : Row) (i : ℕ) (h1 : lastWasTimestamp seq = true)
    (h2 : penultimateWasTimestamp seq = false) (hi : i < eosTokenId) :
    processRow curLen seq c s i = ⊥ := by
  unfold processRow
  apply lseMaskStep_bot
  apply beginTsStep_bot
  apply monotStep_bot
  simp [pairStep, h1, h2, hi]

/-- Monotonicity mask (lines 290-302): every timestamp id strictly below the
last seen timestamp is masked, and stays masked through the remaining
processors. -/
theorem processRow_monot (curLen : ℕ) (seq : List ℕ) (c : Bool) (s : Row)
    (i lastT : ℕ)
    (hm : (seq.filter (fun t => decide (timestampBegin ≤ t))).getLast? =
      some lastT)
    (hlo : timestampBegin ≤ i) (hhi : i < lastT) :
    processRow curLen seq c s i = ⊥ := by
  unfold processRow
  apply lseMaskStep_bot
  apply beginTsStep_bot
  unfold monotStep
  rw [hm]
  have : i < (if lastWasTimestamp seq && !penultimateWasTimestamp seq
      then lastT else lastT + 1) := by
    split
    · exact hhi
    · exact Nat.lt_succ_of_lt hhi
  simp only
  rw [if_pos ⟨hlo, this⟩]

end KW

namespace KW

/-- `exp` of a score entry, with `exp(-inf) = 0` (float semantics of the
`log_softmax` / `logsumexp` computation in lines 310-316). -/
noncomputable def expSc (x : Score) : ℝ :=
  WithBot.recBotCoe 0 (fun q => Real.exp (q : ℝ)) x

theorem expSc_bot : expSc ⊥ = 0 := rfl

theorem expSc_coe (q : ℚ) : expSc (q : Score) = Real.exp (q : ℝ) := rfl

theorem expSc_nonneg (x : Score) : 0 ≤ expSc x := by
  cases x with
  | none => exact le_refl 0
  | some q => exact le_of_lt (Real.exp_pos _)

/-- Lines 310-316 of `greedy_search`:

    logprobs = log_softmax(next_tokens_scores)
    timestamp_logprob = logsumexp(logprobs[k, timestamp_begin:])
    max_text_token_logprob = np.max(logprobs[k, :timestamp_begin])
    if timestamp_logprob > max_text_token_logprob: ...

With `Z = Σ_j exp(s j)` the softmax normaliser, `log_softmax` maps entry
`i` to `s i - log Z` (`-inf` stays `-inf`), so
`max(logprobs[:timestamp_begin])` is the `WithBot ℝ` supremum below, and
`logsumexp(logprobs[timestamp_begin:]) = log(T / Z)` where
`T = Σ_{i ≥ timestamp_begin} exp(s i)` — it is `-inf` exactly when `T = 0`,
in which case the strict float comparison is false.  The comparison
`timestamp_logprob > max_text_token_logprob` is therefore `T > 0` together
with the `WithBot ℝ` inequality below. -/
def tsMassExceeds (V : ℕ) (s : Row) : Prop :=
  0 < ∑ i ∈ Finset.Ico timestampBegin V, expSc (s i) ∧
    (Finset.range timestampBegin).sup
        (fun i => (s i).map
          (fun (q : ℚ) =>
            (q : ℝ) - Real.log (∑ j ∈ Finset.range V, expSc (s j)))) <
      ((Real.log
          ((∑ i ∈ Finset.Ico timestampBegin V, expSc (s i)) /
            (∑ j ∈ Finset.range V, expSc (s j))) : ℝ) : WithBot ℝ)

/-- Positive timestamp mass means some timestamp entry is unmasked. -/
theorem exists_ts_ne_bot (V : ℕ) (s : Row)
    (h : 0 < ∑ i ∈ Finset.Ico timestampBegin V, expSc (s i)) :
    ∃ j, timestampBegin ≤ j ∧ j < V ∧ s j ≠ ⊥ := by
  by_contra hno
  push_neg at hno
  have hz : ∑ i ∈ Finset.Ico timestampBegin V, expSc (s i) = 0 := by
    apply Finset.sum_eq_zero
    intro j hj
    rw [Finset.mem_Ico] at hj
    rw [hno j hj.1 hj.2]
    rfl
  rw [hz] at h
  exact lt_irrefl 0 h

end KW

/-- The shared shape of the two transformers-derived decode loops
(`greedy_search` in kotoba-whisper.py, `sample` in qwen_audio.py): a cap on
the total sequence length, the eos id of the stopping criteria, and the pad
id substituted for finished rows. -/
structure GenCfg where
  maxLen : ℕ
  eosId : ℕ
  padId : ℕ

/-- kotoba-whisper: `max_length = 448` (line 214), `eos_token_id = 50257`
(line 219), `pad_token_id = 50257` (line 226). -/
def kwCfg : GenCfg := ⟨KW.maxLength, KW.eosTokenId, KW.padTokenId⟩

/-- qwen_audio `stopping_criteria` (lines 276-285): `max_length = 310`,
`eos_token_id = 7`.  The pad id the source intends is 7 — but the
assignment `pad_token_id = 7` at line 289 is commented out, so the script
as written raises a NameError at line 350 (see the C6 record). -/
def qaCfg : GenCfg := ⟨310, 7, 7⟩

/-- Decode-loop state: per-row token sequences (`input_ids`), per-row
unfinished flags (`unfinished_sequences`), and the time length of the
decoder's key/value cache.  A batch of size `B` lives in rows `0..B-1`. -/
structure DState where
  ids : ℕ → List ℕ
  unfin : ℕ → Bool
  cacheLen : ℕ

/-- Per-row stopping criteria (`stopping_criteria` in both scripts):
finished when `cur_len >= max_length` or the last token is the eos id. -/
def stoppingRow (cfg : GenCfg) (l : List ℕ) : Bool :=
  decide (cfg.maxLen ≤ l.length) || decide (l.getLast? = some cfg.eosId)

/-- One iteration of the decode-loop body (kotoba-whisper.py lines 254-332,
qwen_audio.py lines 302-365): `choose st r` is row `r`'s chosen token (the
selector applied to the processed scores of the opaque network call);
finished rows get the pad token instead
(`next_tokens * unfinished_sequences + pad_token_id * (1 -
unfinished_sequences)`); the token is appended to every row; the stopping
criteria then clear the flag (`unfinished_sequences & ~stopping`).  The
decoder consumes all not-yet-fed tokens, so the cache time length after the
call is the pre-append sequence length. -/
def decodeStep (cfg : GenCfg) (choose : DState → ℕ → ℕ) (st : DState) :
    DState :=
  let tok : ℕ → ℕ := fun r => if st.unfin r then choose st r else cfg.padId
  { ids := fun r => st.ids r ++ [tok r],
    unfin := fun r => st.unfin r && !(stoppingRow cfg (st.ids r ++ [tok r])),
    cacheLen := (st.ids 0).length }

/-- `np.max(unfinished_sequences) == 0`: every row of the batch has its
unfinished flag cleared. -/
def allFinished (B : ℕ) (st : DState) : Bool :=
  (List.range B).all (fun r => !(st.unfin r))

/-- The decode loop: iterate `decodeStep` until every row of the batch is
finished (`np.max(unfinished_sequences) == 0`, checked after the body) or
the fuel runs out.  The source loops are `while` loops; the length-bound
theorems below show the fuel used here suffices. -/
def decodeLoop (cfg : GenCfg) (choose : DState → ℕ → ℕ) (B : ℕ) :
    ℕ → DState → DState
  | 0, st => st
  | fuel + 1, st =>
    let next := decodeStep cfg choose st
    if allFinished B next then next
    else decodeLoop cfg choose B fuel next

/-- Sequence lengths only grow over the loop. -/
theorem decodeLoop_len_ge (cfg : GenCfg) (choose : DState → ℕ → ℕ) (B : ℕ) :
    ∀ fuel st r,
      (st.ids r).length ≤ ((decodeLoop cfg choose B fuel st).ids r).length := by
  intro fuel
  induction fuel with
  | zero => intro st r; exact le_refl _
  | succ n ih =>
    intro st r
    show (st.ids r).length ≤
      ((if allFinished B (decodeStep cfg choose st)
        then decodeStep cfg choose st
        else decodeLoop cfg choose B n (decodeStep cfg choose st)).ids r).length
    have hstep : (st.ids r).length ≤
        ((decodeStep cfg choose st).ids r).length := by
      simp [decodeStep]
    split
    · exact hstep
    · exact le_trans hstep (ih (decodeStep cfg choose st) r)

/-- With one row in the batch, termination is the row's own flag. -/
theorem allFinished_one (st : DState) :
    allFinished 1 st = !(st.unfin 0) := by
  show List.all [0] (fun r => !(st.unfin r)) = !(st.unfin 0)
  simp

/-- If the chooser never yields the eos id, a single-row loop starting below
the cap runs until the total length reaches exactly `maxLen`. -/
theorem decodeLoop_ceiling (cfg : GenCfg) (choose : DState → ℕ → ℕ)
    (hne : ∀ st, choose st 0 ≠ cfg.eosId) :
    ∀ fuel st, st.unfin 0 = true → (st.ids 0).length < cfg.maxLen →
      cfg.maxLen - (st.ids 0).length ≤ fuel →
      ((decodeLoop cfg choose 1 fuel st).ids 0).length = cfg.maxLen := by
  intro fuel
  induction fuel with
  | zero => intro st hu hlen hfuel; omega
  | succ n ih =>
    intro st hu hlen hfuel
    show ((if allFinished 1 (decodeStep cfg choose st)
        then decodeStep cfg choose st
        else decodeLoop cfg choose 1 n (decodeStep cfg choose st)).ids 0).length =
      cfg.maxLen
    have hlen1 : ((decodeStep cfg choose st).ids 0).length =
        (st.ids 0).length + 1 := by
      simp [decodeStep]
    by_cases hdone : (st.ids 0).length + 1 = cfg.maxLen
    · have hstop : stoppingRow cfg ((decodeStep cfg choose st).ids 0) = true := by
        unfold stoppingRow
        rw [Bool.or_eq_true, decide_eq_true_iff, hlen1, hdone]
        exact Or.inl (le_refl _)
      have hufalse : (decodeStep cfg choose st).unfin 0 = false := by
        show (st.unfin 0 && !(stoppingRow cfg (st.ids 0 ++
          [if st.unfin 0 then choose st 0 else cfg.padId]))) = false
        have hs : stoppingRow cfg (st.ids 0 ++
            [if st.unfin 0 then choose st 0 else cfg.padId]) = true := hstop
        rw [hs]
        simp
      rw [if_pos (by rw [allFinished_one, hufalse]; rfl)]
      rw [hlen1, hdone]
    · have hnostop : stoppingRow cfg ((decodeStep cfg choose st).ids 0) = false := by
        unfold stoppingRow
        rw [Bool.or_eq_false_iff, decide_eq_false_iff_not,
          decide_eq_false_iff_not]
        constructor
        · rw [hlen1]; omega
        · show ¬ (st.ids 0 ++
              [if st.unfin 0 then choose st 0 else cfg.padId]).getLast? =
            some cfg.eosId
          rw [List.getLast?_concat, hu, if_pos rfl]
          intro hcon
          exact hne st (Option.some_injective _ hcon)
      have hutrue : (decodeStep cfg choose st).unfin 0 = true := by
        show (st.unfin 0 && !(stoppingRow cfg (st.ids 0 ++
          [if st.unfin 0 then choose st 0 else cfg.padId]))) = true
        have hs : stoppingRow cfg (st.ids 0 ++
            [if st.unfin 0 then choose st 0 else cfg.padId]) = false := hnostop
        rw [hs, hu]
        rfl
      rw [if_neg (by rw [allFinished_one, hutrue]; exact Bool.not_true ▸
        (by simp))]
      apply ih
      · exact hutrue
      · omega
      · omega

namespace GS

/-- `self.hz = 50` (gpt-sovits.py line 104): the acoustic frame rate in
generated steps per second. -/
def hz : ℤ := 50

/-- `self.t2s_model.model.early_stop_num = torch.LongTensor([self.hz *
self.max_sec])` (line 107): the duration-derived early-stop cap. -/
def earlyStopNum (maxSec : ℤ) : ℤ := hz * maxSec

/-- The `for idx in range(1, 1500)` loop of `T2SModel.forward`
(lines 145-164).  One `stage_decoder` call from the current sequence `y` is
abstracted as `dec y = (argmax of its logits, its sampled token)`; the call
appends the sampled token to `y`.  After the step the loop sets
`stop = True` when the early-stop cap is enabled and exceeded
(`early_stop_num != -1 and (y.shape[1] - prefix_len) > early_stop_num`) or
when either the logits argmax or the sample equals `EOS`, and breaks.
The fuel is the number of remaining loop indices (`1499` at entry, `idx`
starting at 1); `idx` carries Python's loop variable, whose final value the
function returns together with the final `y`. -/
def sovitsGo (dec : List ℕ → ℕ × ℕ) (eosTok : ℕ) (e : ℤ) (pre : ℕ) :
    ℕ → List ℕ → ℕ → List ℕ × ℕ
  | 0, y, idx => (y, idx)
  | fuel + 1, y, idx =>
    let out := dec y
    let yNew := y ++ [out.2]
    let stop : Bool :=
      (decide (e ≠ -1) && decide (e < (yNew.length : ℤ) - (pre : ℤ))) ||
        (decide (out.1 = eosTok) || decide (out.2 = eosTok))
    if stop || decide (1499 ≤ idx) then (yNew, idx)
    else sovitsGo dec eosTok e pre fuel yNew (idx + 1)

/-- `T2SModel.forward` after the loop (lines 165-167): `y[0, -1] = 0`
zeroes the last emitted position, and `y[:, -idx:]` returns the last `idx`
positions. -/
def t2sForward (dec : List ℕ → ℕ × ℕ) (eosTok : ℕ) (e : ℤ) (pre : ℕ)
    (y0 : List ℕ) : List ℕ :=
  let r := sovitsGo dec eosTok e pre 1499 y0 1
  let y2 := r.1.dropLast ++ [0]
  y2.drop (y2.length - r.2)

/-- Loop bookkeeping: the final Python loop index lies between the entry
index and 1499, and the sequence has grown by one token per executed
iteration, i.e. by `final_idx - entry_idx + 1` tokens. -/
theorem sovitsGo_size (dec : List ℕ → ℕ × ℕ) (eosTok : ℕ) (e : ℤ) (pre : ℕ) :
    ∀ fuel y idx, idx + fuel = 1500 → 1 ≤ idx → idx ≤ 1499 →
      idx ≤ (sovitsGo dec eosTok e pre fuel y idx).2 ∧
      (sovitsGo dec eosTok e pre fuel y idx).2 ≤ 1499 ∧
      (sovitsGo dec eosTok e pre fuel y idx).1.length =
        y.length + ((sovitsGo dec eosTok e pre fuel y idx).2 - idx) + 1 := by
  intro fuel
  induction fuel with
  | zero => intro y idx h1 h2 h9; exfalso; omega
  | succ n ih =>
    intro y idx h1 h2 h9
    have hunf : sovitsGo dec eosTok e pre (n + 1) y idx =
        (if ((decide (e ≠ -1) &&
              decide (e < ((y ++ [(dec y).2]).length : ℤ) - (pre : ℤ))) ||
            (decide ((dec y).1 = eosTok) || decide ((dec y).2 = eosTok))) ||
            decide (1499 ≤ idx)
          then (y ++ [(dec y).2], idx)
          else sovitsGo dec eosTok e pre n (y ++ [(dec y).2]) (idx + 1)) := rfl
    rw [hunf]
    split
    · refine ⟨le_refl idx, by omega, ?_⟩
      simp
    · rename_i hcond
      have hidx : ¬ (1499 ≤ idx) := by
        intro hcon
        apply hcond
        rw [Bool.or_eq_true]
        exact Or.inr (decide_eq_true hcon)
      have hih := ih (y ++ [(dec y).2]) (idx + 1) (by omega) (by omega)
        (by omega)
      refine ⟨?_, hih.2.1, ?_⟩
      · have h3 := hih.1
        omega
      · have h3 := hih.2.2
        have h4 := hih.1
        simp only [List.length_append, List.length_singleton] at h3
        omega

/-- If neither EOS test ever fires and the early stop is disabled
(`early_stop_num = -1`), nothing sets `stop`, so the loop runs through
every index of `range(1, 1500)` — its body executes 1499 times, appending
one token per iteration — and ends with `idx = 1499`. -/
theorem sovitsGo_no_stop (dec : List ℕ → ℕ × ℕ) (eosTok : ℕ) (pre : ℕ)
    (hne : ∀ y, (dec y).1 ≠ eosTok ∧ (dec y).2 ≠ eosTok) :
    ∀ fuel y idx, idx + fuel = 1500 → 1 ≤ idx → idx ≤ 1499 →
      (sovitsGo dec eosTok (-1) pre fuel y idx).2 = 1499 ∧
      (sovitsGo dec eosTok (-1) pre fuel y idx).1.length = y.length + fuel := by
  intro fuel
  induction fuel with
  | zero => intro y idx h1 h2 h9; exfalso; omega
  | succ n ih =>
    intro y idx h1 h2 h9
    have hunf : sovitsGo dec eosTok (-1) pre (n + 1) y idx =
        (if ((decide ((-1 : ℤ) ≠ -1) &&
              decide ((-1 : ℤ) < ((y ++ [(dec y).2]).length : ℤ) - (pre : ℤ))) ||
            (decide ((dec y).1 = eosTok) || decide ((dec y).2 = eosTok))) ||
            decide (1499 ≤ idx)
          then (y ++ [(dec y).2], idx)
          else sovitsGo dec eosTok (-1) pre n (y ++ [(dec y).2]) (idx + 1)) :=
      rfl
    have hd1 : decide ((dec y).1 = eosTok) = false := decide_eq_false (hne y).1
    have hd2 : decide ((dec y).2 = eosTok) = false := decide_eq_false (hne y).2
    have hdm : decide ((-1 : ℤ) ≠ -1) = false := by decide
    rw [hunf, hd1, hd2, hdm]
    simp only [Bool.false_and, Bool.or_false, Bool.false_or]
    by_cases hc : 1499 ≤ idx
    · rw [if_pos (decide_eq_true hc)]
      constructor
      · omega
      · have hn0 : n = 0 := by omega
        simp [hn0]
    · rw [if_neg (by rw [decide_eq_false hc]; exact Bool.false_ne_true)]
      have hih := ih (y ++ [(dec y).2]) (idx + 1) (by omega) (by omega)
        (by omega)
      refine ⟨hih.1, ?_⟩
      rw [hih.2]
      simp only [List.length_append, List.length_singleton]
      omega

end GS

/-- C7: In the acoustic decoder (`T2SModel.forward`, gpt-sovits.py lines
163-167), when the loop reaches its terminal state the last emitted token
position is zeroed (`y[0, -1] = 0`) before the finished sequence is
returned, and the returned sub-sequence `y[:, -idx:]` has length equal to
the number of stepping iterations executed: the loop body ran once per
index `1..idx`, growing `y` by exactly `idx` tokens, and the final `idx`
positions are returned, the zeroed one last. -/
theorem t2s_truncate_zeroed (dec : List ℕ → ℕ × ℕ) (eosTok : ℕ) (e : ℤ)
    (pre : ℕ) (y0 : List ℕ) (h0 : y0 ≠ []) :
    (GS.t2sForward dec eosTok e pre y0).getLast? = some 0 ∧
    (GS.t2sForward dec eosTok e pre y0).length =
      (GS.sovitsGo dec eosTok e pre 1499 y0 1).2 ∧
    (GS.sovitsGo dec eosTok e pre 1499 y0 1).1.length =
      y0.length + (GS.sovitsGo dec eosTok e pre 1499 y0 1).2 := by
  obtain ⟨hge, hle, hlen⟩ :=
    GS.sovitsGo_size dec eosTok e pre 1499 y0 1 (by omega) (by omega) (by omega)
  have h0len : 1 ≤ y0.length := List.length_pos.mpr h0
  have hlen2 : (GS.sovitsGo dec eosTok e pre 1499 y0 1).1.length =
      y0.length + (GS.sovitsGo dec eosTok e pre 1499 y0 1).2 := by omega
  refine ⟨?_, ?_, hlen2⟩
  · show (((GS.sovitsGo dec eosTok e pre 1499 y0 1).1.dropLast ++ [0]).drop
        (((GS.sovitsGo dec eosTok e pre 1499 y0 1).1.dropLast ++ [0]).length -
          (GS.sovitsGo dec eosTok e pre 1499 y0 1).2)).getLast? = some 0
    rw [List.drop_append_of_le_length]
    · exact List.getLast?_concat _
    · simp only [List.length_append, List.length_singleton,
        List.length_dropLast]
      omega
  · show (((GS.sovitsGo dec eosTok e pre 1499 y0 1).1.dropLast ++ [0]).drop
        (((GS.sovitsGo dec eosTok e pre 1499 y0 1).1.dropLast ++ [0]).length -
          (GS.sovitsGo dec eosTok e pre 1499 y0 1).2)).length =
      (GS.sovitsGo dec eosTok e pre 1499 y0 1).2
    rw [List.length_drop]
    simp only [List.length_append, List.length_singleton, List.length_dropLast]
    omega

/-- Witness for C7 at a concrete stub: a decoder whose first step returns
the EOS token on both channels. -/
theorem t2s_truncate_zeroed_witness :
    (([5] : List ℕ) ≠ []) ∧
    (GS.t2sForward (fun _ => (1024, 1024)) 1024 (-1) 0 [5]).getLast? =
      some 0 :=
  ⟨by decide,
    (t2s_truncate_zeroed (fun _ => (1024, 1024)) 1024 (-1) 0 [5]
      (by decide)).1⟩

/-- C8: In the acoustic decoder, whenever the early-stop cap is enabled
(`early_stop_num != -1`), an iteration that brings the number of newly
generated steps (`y.shape[1] - prefix_len`) strictly above the cap breaks
the loop immediately, whatever the EOS tests say (the break is taken for
any stub `dec`); the cap is duration-derived: `early_stop_num = hz *
max_sec` with `hz = 50` frames per second. -/
theorem early_stop_cap (dec : List ℕ → ℕ × ℕ) (eosTok : ℕ) (maxSec : ℤ)
    (pre : ℕ) (fuel : ℕ) (y : List ℕ) (idx : ℕ)
    (he : GS.earlyStopNum maxSec ≠ -1)
    (hex : GS.earlyStopNum maxSec <
      ((y ++ [(dec y).2]).length : ℤ) - (pre : ℤ)) :
    GS.sovitsGo dec eosTok (GS.earlyStopNum maxSec) pre (fuel + 1) y idx =
      (y ++ [(dec y).2], idx) ∧
    GS.earlyStopNum maxSec = 50 * maxSec := by
  constructor
  · have hunf : GS.sovitsGo dec eosTok (GS.earlyStopNum maxSec) pre
        (fuel + 1) y idx =
        (if ((decide (GS.earlyStopNum maxSec ≠ -1) &&
              decide (GS.earlyStopNum maxSec <
                ((y ++ [(dec y).2]).length : ℤ) - (pre : ℤ))) ||
            (decide ((dec y).1 = eosTok) || decide ((dec y).2 = eosTok))) ||
            decide (1499 ≤ idx)
          then (y ++ [(dec y).2], idx)
          else GS.sovitsGo dec eosTok (GS.earlyStopNum maxSec) pre fuel
            (y ++ [(dec y).2]) (idx + 1)) := rfl
    rw [hunf, decide_eq_true he, decide_eq_true hex]
    simp
  · rfl

/-- Witness for C8: one second of audio allows 50 generated steps; a
61-token sequence with an empty prefix exceeds the cap and stops the loop
on the spot. -/
theorem early_stop_cap_witness :
    (GS.earlyStopNum 1 ≠ -1) ∧
    (GS.earlyStopNum 1 <
      (((List.replicate 60 0 : List ℕ) ++
        [((fun _ => (0, 0) : List ℕ → ℕ × ℕ) (List.replicate 60 0)).2]).length :
          ℤ) - ((0 : ℕ) : ℤ)) ∧
    GS.sovitsGo (fun _ => (0, 0)) 1024 (GS.earlyStopNum 1) 0 1
        (List.replicate 60 0) 1 =
      (List.replicate 60 0 ++ [0], 1) :=
  ⟨by decide, by decide,
    (early_stop_cap (fun _ => (0, 0)) 1024 1 0 0 (List.replicate 60 0) 1
      (by decide) (by decide)).1⟩

/-- An all-zeros score row (a generic finite logits vector). -/
def zeroRow : Row := fun _ => ((0 : ℚ) : Score)

/-- Raw-logits stub whose arg-max is the ASR eos id 50257: score 100 at the
eos id, 0 everywhere else. -/
def stubLogits : Row :=
  fun i => if i = 50257 then ((100 : ℚ) : Score) else ((0 : ℚ) : Score)

/-- The per-step chooser of `greedy_search` driven by the constant network
stub `stubLogits`: process the row's scores for its current history and
take the arg-max over the decoder's 51866-wide vocabulary.  `c` is the
step's timestamp-probability-mass bit. -/
def kwChoose (c : Bool) : DState → ℕ → ℕ :=
  fun st r =>
    argmaxRow
      (KW.processRow (st.ids r).length ((st.ids r).drop KW.beginIndex) c
        stubLogits) 51866

/-- The decoder prompt `init_tokens = [[50258, 50266, 50360]]`
(kotoba-whisper.py line 363) as a single-row state. -/
def initKW : DState := ⟨fun _ => [50258, 50266, 50360], fun _ => true, 0⟩

/-- A single-row state whose row 0 is already finished. -/
def frozenSt : DState := ⟨fun _ => [9], fun _ => false, 0⟩

/-- The C5 witness row: one unmasked timestamp entry with score 0,
everything else already masked. -/
def wRow : Row := fun i => if i = 50365 then ((0 : ℚ) : Score) else ⊥

/-- If the first step's chosen token is not the eos id and the cap is not
yet reached, the loop keeps going: at least two more tokens are appended. -/
theorem decodeLoop_continues (cfg : GenCfg) (choose : DState → ℕ → ℕ)
    (st : DState) (fuel : ℕ) (hu : st.unfin 0 = true)
    (hne : choose st 0 ≠ cfg.eosId)
    (hlen : (st.ids 0).length + 1 < cfg.maxLen) :
    (st.ids 0).length + 2 ≤
      ((decodeLoop cfg choose 1 (fuel + 2) st).ids 0).length := by
  have hlen1 : ((decodeStep cfg choose st).ids 0).length =
      (st.ids 0).length + 1 := by
    simp [decodeStep]
  have hnostop : stoppingRow cfg ((decodeStep cfg choose st).ids 0) = false := by
    unfold stoppingRow
    rw [Bool.or_eq_false_iff, decide_eq_false_iff_not, decide_eq_false_iff_not]
    constructor
    · rw [hlen1]; omega
    · show ¬ (st.ids 0 ++
          [if st.unfin 0 then choose st 0 else cfg.padId]).getLast? =
        some cfg.eosId
      rw [List.getLast?_concat, hu, if_pos rfl]
      intro hcon
      exact hne (Option.some_injective _ hcon)
  have hutrue : (decodeStep cfg choose st).unfin 0 = true := by
    show (st.unfin 0 && !(stoppingRow cfg (st.ids 0 ++
      [if st.unfin 0 then choose st 0 else cfg.padId]))) = true
    have hs : stoppingRow cfg (st.ids 0 ++
        [if st.unfin 0 then choose st 0 else cfg.padId]) = false := hnostop
    rw [hs, hu]
    rfl
  show (st.ids 0).length + 2 ≤
    ((if allFinished 1 (decodeStep cfg choose st) then decodeStep cfg choose st
      else decodeLoop cfg choose 1 (fuel + 1)
        (decodeStep cfg choose st)).ids 0).length
  rw [if_neg (by rw [allFinished_one, hutrue]; simp)]
  have hnext : (st.ids 0).length + 2 ≤
      ((decodeStep cfg choose (decodeStep cfg choose st)).ids 0).length := by
    have : ((decodeStep cfg choose (decodeStep cfg choose st)).ids 0).length =
        ((decodeStep cfg choose st).ids 0).length + 1 := by
      simp [decodeStep]
    omega
  show (st.ids 0).length + 2 ≤
    ((if allFinished 1 (decodeStep cfg choose (decodeStep cfg choose st))
      then decodeStep cfg choose (decodeStep cfg choose st)
      else decodeLoop cfg choose 1 fuel
        (decodeStep cfg choose (decodeStep cfg choose st))).ids 0).length
  split
  · exact hnext
  · exact le_trans hnext
      (decodeLoop_len_ge cfg choose 1 fuel
        (decodeStep cfg choose (decodeStep cfg choose st)) 0)

/-- C2 (amended): every decode loop terminates within a fixed ceiling even
when no stopping condition ever fires.  The acoustic decoder's
`for idx in range(1, 1500)` executes its body at most 1499 times — with a
stage-decoder stub that never produces EOS and the early stop disabled it
runs exactly 1499 stepping iterations (one appended token each) and ends at
loop index 1499 (not 1500); the ASR loop stops once the total sequence
length reaches 448 and the chat loop once it reaches 310, returning the
sequence produced so far. -/
theorem decode_loops_hard_ceiling :
    (∀ (dec : List ℕ → ℕ × ℕ) (eosTok : ℕ) (pre : ℕ) (y0 : List ℕ),
      (∀ y, (dec y).1 ≠ eosTok ∧ (dec y).2 ≠ eosTok) →
      (GS.sovitsGo dec eosTok (-1) pre 1499 y0 1).2 = 1499 ∧
      (GS.sovitsGo dec eosTok (-1) pre 1499 y0 1).1.length =
        y0.length + 1499) ∧
    (∀ (choose : DState → ℕ → ℕ) (st : DState),
      (∀ st2, choose st2 0 ≠ kwCfg.eosId) → st.unfin 0 = true →
      (st.ids 0).length = 3 →
      ((decodeLoop kwCfg choose 1 448 st).ids 0).length = 448) ∧
    (∀ (choose : DState → ℕ → ℕ) (st : DState),
      (∀ st2, choose st2 0 ≠ qaCfg.eosId) → st.unfin 0 = true →
      (st.ids 0).length < 310 →
      ((decodeLoop qaCfg choose 1 310 st).ids 0).length = 310) := by
  refine ⟨?_, ?_, ?_⟩
  · intro dec eosTok pre y0 hne
    exact GS.sovitsGo_no_stop dec eosTok pre hne 1499 y0 1 (by omega)
      (by omega) (by omega)
  · intro choose st hne hu hlen
    exact decodeLoop_ceiling kwCfg choose hne 448 st hu
      (by rw [hlen]; decide) (by rw [hlen]; decide)
  · intro choose st hne hu hlen
    have h310 : qaCfg.maxLen = 310 := rfl
    exact decodeLoop_ceiling qaCfg choose hne 310 st hu (by omega) (by omega)

/-- Witness for C2: concrete never-stopping stubs for all three loops. -/
theorem decode_loops_hard_ceiling_witness :
    (GS.sovitsGo (fun _ => (1, 1)) 1024 (-1) 0 1499 [0] 1).2 = 1499 ∧
    ((decodeLoop kwCfg (fun _ _ => 0) 1 448 initKW).ids 0).length = 448 ∧
    ((decodeLoop qaCfg (fun _ _ => 0) 1 310 initKW).ids 0).length = 310 :=
  ⟨(decode_loops_hard_ceiling.1 (fun _ => (1, 1)) 1024 0 [0]
      (fun _ => ⟨by show (1 : ℕ) ≠ 1024; decide,
        by show (1 : ℕ) ≠ 1024; decide⟩)).1,
   decode_loops_hard_ceiling.2.1 (fun _ _ => 0) initKW
      (fun _ => by show (0 : ℕ) ≠ 50257; decide) rfl (by decide),
   decode_loops_hard_ceiling.2.2 (fun _ _ => 0) initKW
      (fun _ => by show (0 : ℕ) ≠ 7; decide) rfl (by decide)⟩

/-- C2 counterexample: with a stage-decoder stub that never fires any
stopping condition and the early stop disabled, the acoustic decoder's
loop body executes 1499 times (the final value of Python's `idx` over
`range(1, 1500)`), appending 1499 tokens — not the 1500 steps the claim
states. -/
theorem acoustic_ceiling_counterexample :
    (GS.sovitsGo (fun _ => (0, 0)) 1024 (-1) 0 1499 [0] 1).2 = 1499 ∧
    (GS.sovitsGo (fun _ => (0, 0)) 1024 (-1) 0 1499 [0] 1).1.length =
      1 + 1499 ∧
    (1499 : ℕ) ≠ 1500 := by
  have h := GS.sovitsGo_no_stop (fun _ => (0, 0)) 1024 0
    (fun _ => ⟨by show (0 : ℕ) ≠ 1024; decide,
      by show (0 : ℕ) ≠ 1024; decide⟩) 1499 [0] 1 (by omega) (by omega)
    (by omega)
  exact ⟨h.1, h.2, by decide⟩

/-- C3 (amended): in the shared decode loop, if the token actually chosen
at the first generation step (after logits processing) equals the
configured eos id, the loop stops on the spot and the row's generated
sequence has length exactly 1 — the appended eos token.  (A raw-logits
stub whose arg-max is an eos id does not guarantee this: at the ASR begin
step the processors suppress the eos id and force a timestamp, see the
counterexample.) -/
theorem eos_chosen_first_step_stops (cfg : GenCfg)
    (choose : DState → ℕ → ℕ) (st : DState) (fuel : ℕ) (hf : 1 ≤ fuel)
    (hu : st.unfin 0 = true) (hc : choose st 0 = cfg.eosId) :
    (decodeLoop cfg choose 1 fuel st).ids 0 = st.ids 0 ++ [cfg.eosId] ∧
    ((decodeLoop cfg choose 1 fuel st).ids 0).length =
      (st.ids 0).length + 1 := by
  obtain ⟨n, rfl⟩ : ∃ n, fuel = n + 1 := ⟨fuel - 1, by omega⟩
  have htok : (if st.unfin 0 then choose st 0 else cfg.padId) = cfg.eosId := by
    rw [hu]
    simpa using hc
  have hstop : stoppingRow cfg (st.ids 0 ++
      [if st.unfin 0 then choose st 0 else cfg.padId]) = true := by
    unfold stoppingRow
    rw [Bool.or_eq_true]
    right
    rw [decide_eq_true_iff, List.getLast?_concat, htok]
  have hufalse : (decodeStep cfg choose st).unfin 0 = false := by
    show (st.unfin 0 && !(stoppingRow cfg (st.ids 0 ++
      [if st.unfin 0 then choose st 0 else cfg.padId]))) = false
    rw [hstop]
    simp
  show ((if allFinished 1 (decodeStep cfg choose st)
      then decodeStep cfg choose st
      else decodeLoop cfg choose 1 n (decodeStep cfg choose st)).ids 0) =
        st.ids 0 ++ [cfg.eosId] ∧
    ((if allFinished 1 (decodeStep cfg choose st)
      then decodeStep cfg choose st
      else decodeLoop cfg choose 1 n
        (decodeStep cfg choose st)).ids 0).length =
      (st.ids 0).length + 1
  rw [if_pos (by rw [allFinished_one, hufalse]; rfl)]
  constructor
  · show st.ids 0 ++ [if st.unfin 0 then choose st 0 else cfg.padId] =
      st.ids 0 ++ [cfg.eosId]
    rw [htok]
  · show (st.ids 0 ++
      [if st.unfin 0 then choose st 0 else cfg.padId]).length =
      (st.ids 0).length + 1
    simp

/-- Witness for C3 at a chooser that picks the ASR eos id first. -/
theorem eos_chosen_first_step_stops_witness :
    ((fun _ _ => 50257 : DState → ℕ → ℕ) initKW 0 = kwCfg.eosId) ∧
    (decodeLoop kwCfg (fun _ _ => 50257) 1 1 initKW).ids 0 =
      initKW.ids 0 ++ [kwCfg.eosId] ∧
    ((decodeLoop kwCfg (fun _ _ => 50257) 1 1 initKW).ids 0).length =
      (initKW.ids 0).length + 1 :=
  ⟨by decide,
   (eos_chosen_first_step_stops kwCfg (fun _ _ => 50257) initKW 1
      (by decide) rfl (by decide)).1,
   (eos_chosen_first_step_stops kwCfg (fun _ _ => 50257) initKW 1
      (by decide) rfl (by decide)).2⟩

/-- The raw arg-max of the stub is the eos id. -/
theorem stubLogits_argmax : argmaxRow stubLogits 51866 = 50257 := by
  have hs1 : stubLogits 50257 = ((100 : ℚ) : Score) := if_pos rfl
  apply argmaxRow_eq_of stubLogits 51866 50257 (by decide)
  · intro i hi
    rw [hs1]
    unfold stubLogits
    split
    · exact le_refl _
    · exact WithBot.coe_le_coe.mpr (by norm_num)
  · intro i hi
    rw [hs1]
    unfold stubLogits
    rw [if_neg (by omega)]
    exact WithBot.coe_lt_coe.mpr (by norm_num)

/-- At the first generation step (history empty, current length 3), the
processed arg-max over the stub is the initial timestamp 50365, whatever
the timestamp-mass bit is. -/
theorem kwChoose_begin (c : Bool) : kwChoose c initKW 0 = 50365 := by
  unfold kwChoose
  show argmaxRow
    (KW.processRow KW.beginIndex ([] : List ℕ) c stubLogits) 51866 = 50365
  have hmid : ∀ i, 50365 ≤ i → i ≤ 50415 →
      KW.processRow KW.beginIndex [] c stubLogits i = stubLogits i :=
    fun i h1 h2 => KW.processRow_begin_mid c stubLogits i h1 h2
  have h365 : KW.processRow KW.beginIndex [] c stubLogits 50365 =
      ((0 : ℚ) : Score) := by
    rw [hmid 50365 (by decide) (by decide)]
    decide
  apply argmaxRow_eq_of _ 51866 50365 (by decide)
  · intro i hi
    rw [h365]
    by_cases hlow : i < 50365
    · rw [KW.processRow_begin_low [] c stubLogits i hlow]
      exact bot_le
    · by_cases hhigh : 50415 < i
      · rw [KW.processRow_begin_high [] c stubLogits i hhigh]
        exact bot_le
      · rw [hmid i (by omega) (by omega)]
        have : stubLogits i = ((0 : ℚ) : Score) := if_neg (by omega)
        rw [this]
  · intro i hi
    rw [KW.processRow_begin_low [] c stubLogits i hi, h365]
    exact WithBot.bot_lt_coe 0

/-- With the stub chooser, the ASR loop does not stop after one step. -/
theorem kwChoose_loop_continues (c : Bool) :
    5 ≤ ((decodeLoop kwCfg (kwChoose c) 1 448 initKW).ids 0).length := by
  have h := decodeLoop_continues kwCfg (kwChoose c) initKW 446 rfl
    (by rw [kwChoose_begin c]; decide) (by decide)
  have h448 : (446 + 2 : ℕ) = 448 := rfl
  rw [h448] at h
  have h3 : (initKW.ids 0).length = 3 := rfl
  omega

/-- C3 counterexample: `stubLogits` is an inference stub whose raw arg-max
at the first generation step equals the configured eos id 50257; yet the
chosen token at that step is the initial timestamp 50365 — the begin-step
processors suppress the eos id and force a timestamp, whatever the
timestamp-mass bit was — the loop therefore does not stop, and the row's
generated sequence does not have length 1 (total length stays above 4),
contradicting the claim. -/
theorem eos_argmax_stub_counterexample :
    argmaxRow stubLogits 51866 = 50257 ∧
    kwChoose true initKW 0 = 50365 ∧
    kwChoose false initKW 0 = 50365 ∧
    ((decodeLoop kwCfg (kwChoose true) 1 448 initKW).ids 0).length ≠ 4 ∧
    ((decodeLoop kwCfg (kwChoose false) 1 448 initKW).ids 0).length ≠ 4 := by
  refine ⟨stubLogits_argmax, kwChoose_begin true, kwChoose_begin false,
    ?_, ?_⟩
  · have h5 := kwChoose_loop_continues true
    omega
  · have h5 := kwChoose_loop_continues false
    omega

/-- C1 (amended): the timestamp-pairing processor enforces the pairing the
other way round from the claim: when the two most recently generated
tokens are both timestamps (or the single generated token is a timestamp),
the next token has to be a non-timestamp — the entire timestamp range is
masked to `-inf`; when the most recent token is a timestamp and the one
before it is not, the next token must not be an ordinary text token —
every id below the eos id 50257 (not the whole range below the timestamps)
is masked.  Both masks survive the rest of the step's processors. -/
theorem timestamp_pairing_masks (curLen : ℕ) (seq : List ℕ) (c : Bool)
    (s : Row) :
    (KW.lastWasTimestamp seq = true → KW.penultimateWasTimestamp seq = true →
      ∀ i, KW.timestampBegin ≤ i → KW.processRow curLen seq c s i = ⊥) ∧
    (KW.lastWasTimestamp seq = true → KW.penultimateWasTimestamp seq = false →
      ∀ i, i < KW.eosTokenId → KW.processRow curLen seq c s i = ⊥) :=
  ⟨fun h1 h2 i hi => KW.processRow_pair_both curLen seq c s i h1 h2 hi,
   fun h1 h2 i hi => KW.processRow_pair_unpaired curLen seq c s i h1 h2 hi⟩

/-- Witness for C1 at two concrete histories: `[50366, 50367]` (paired
timestamps — the timestamp range is masked) and `[100, 50366]` (unpaired
timestamp — the text range is masked). -/
theorem timestamp_pairing_masks_witness :
    KW.lastWasTimestamp [50366, 50367] = true ∧
    KW.penultimateWasTimestamp [50366, 50367] = true ∧
    KW.processRow 5 [50366, 50367] false zeroRow 50365 = ⊥ ∧
    KW.lastWasTimestamp [100, 50366] = true ∧
    KW.penultimateWasTimestamp [100, 50366] = false ∧
    KW.processRow 5 [100, 50366] false zeroRow 100 = ⊥ :=
  ⟨by decide, by decide,
   (timestamp_pairing_masks 5 [50366, 50367] false zeroRow).1 (by decide)
     (by decide) 50365 (by decide),
   by decide, by decide,
   (timestamp_pairing_masks 5 [100, 50366] false zeroRow).2 (by decide)
     (by decide) 100 (by decide)⟩

/-- C1 counterexample: with history `[100, 50366]` the most recent
generated token is a timestamp and the one before it is not — the claim
says the entire timestamp range is then masked, but the processor masks
the text range instead: the timestamp entry 50366 keeps its finite score
(whatever the timestamp-mass bit of the step was). -/
theorem timestamp_pairing_counterexample :
    KW.lastWasTimestamp [100, 50366] = true ∧
    KW.penultimateWasTimestamp [100, 50366] = false ∧
    KW.timestampBegin ≤ 50366 ∧
    KW.processRow 5 [100, 50366] false zeroRow 50366 = ((0 : ℚ) : Score) ∧
    KW.processRow 5 [100, 50366] true zeroRow 50366 = ((0 : ℚ) : Score) :=
  ⟨by decide, by decide, by decide, by decide, by decide⟩

/-- C4: whenever the row's generated history contains a timestamp token,
the monotonicity mask (lines 290-302) sets every timestamp id strictly
below the last seen timestamp to `-inf`; the mask survives the remaining
processors, so the arg-max — the chosen token — is never a timestamp
smaller than the most recently emitted one. -/
theorem timestamp_monotonic_mask (curLen : ℕ) (seq : List ℕ) (c : Bool)
    (s : Row) (lastT : ℕ)
    (hm : (seq.filter (fun t => decide (KW.timestampBegin ≤ t))).getLast? =
      some lastT) :
    (∀ i, KW.timestampBegin ≤ i → i < lastT →
      KW.processRow curLen seq c s i = ⊥) ∧
    ∀ V, ¬ (KW.timestampBegin ≤ argmaxRow (KW.processRow curLen seq c s) V ∧
      argmaxRow (KW.processRow curLen seq c s) V < lastT) := by
  have hmask : ∀ i, KW.timestampBegin ≤ i → i < lastT →
      KW.processRow curLen seq c s i = ⊥ :=
    fun i h1 h2 => KW.processRow_monot curLen seq c s i lastT hm h1 h2
  refine ⟨hmask, ?_⟩
  intro V
  rintro ⟨ha1, ha2⟩
  by_cases hex : ∃ j, j < V ∧ KW.processRow curLen seq c s j ≠ ⊥
  · obtain ⟨j, hj, hjb⟩ := hex
    have hargb : KW.processRow curLen seq c s
        (argmaxRow (KW.processRow curLen seq c s) V) ≠ ⊥ :=
      argmaxRow_ne_bot (KW.processRow curLen seq c s) V j hj hjb
    exact hargb (hmask _ ha1 ha2)
  · push_neg at hex
    have h0 : argmaxRow (KW.processRow curLen seq c s) V = 0 :=
      argmaxRow_all_bot (KW.processRow curLen seq c s) V hex
    rw [h0] at ha1
    exact absurd ha1 (by decide)

/-- Witness for C4: history `[50366, 50367]`, last seen timestamp 50367;
entry 50366 is masked and the arg-max cannot fall in `[50365, 50367)`. -/
theorem timestamp_monotonic_mask_witness :
    ((([50366, 50367] : List ℕ).filter
        (fun t => decide (KW.timestampBegin ≤ t))).getLast? = some 50367) ∧
    KW.processRow 5 [50366, 50367] false zeroRow 50366 = ⊥ ∧
    ¬ (KW.timestampBegin ≤
        argmaxRow (KW.processRow 5 [50366, 50367] false zeroRow) 51866 ∧
      argmaxRow (KW.processRow 5 [50366, 50367] false zeroRow) 51866 <
        50367) :=
  ⟨by decide,
   (timestamp_monotonic_mask 5 [50366, 50367] false zeroRow 50367
      (by decide)).1 50366 (by decide) (by decide),
   (timestamp_monotonic_mask 5 [50366, 50367] false zeroRow 50367
      (by decide)).2 51866⟩

/-- C6: in the batch decode loop, once a row's unfinished flag is cleared
it is never set again; at every subsequent step the token appended to that
row is the configured pad id, while the row is still stepped — its
sequence length grows by exactly one per iteration and the cache time
length reported to the next call advances with it.  (kotoba-whisper
implements this; the qwen_audio `sample` cites the same logic but its
`pad_token_id` exists only as a comment, so that script raises a NameError
instead — see the C6 record.) -/
theorem frozen_row_pad_forever (cfg : GenCfg) (choose : DState → ℕ → ℕ)
    (st : DState) (r : ℕ) (h : st.unfin r = false) :
    ∀ n, ((decodeStep cfg choose)^[n] st).unfin r = false ∧
      ((decodeStep cfg choose)^[n + 1] st).ids r =
        ((decodeStep cfg choose)^[n] st).ids r ++ [cfg.padId] ∧
      (((decodeStep cfg choose)^[n] st).ids r).length =
        (st.ids r).length + n ∧
      ((decodeStep cfg choose)^[n + 1] st).cacheLen =
        (((decodeStep cfg choose)^[n] st).ids 0).length := by
  intro n
  induction n with
  | zero =>
    refine ⟨h, ?_, rfl, ?_⟩
    · rw [Function.iterate_one]
      show st.ids r ++ [if st.unfin r then choose st r else cfg.padId] = _
      rw [h]
      simp
    · rw [Function.iterate_one]
      rfl
  | succ n ih =>
    obtain ⟨ihu, ihids, ihlen, ihcache⟩ := ih
    have hu1 : ((decodeStep cfg choose)^[n + 1] st).unfin r = false := by
      rw [Function.iterate_succ_apply']
      show (((decodeStep cfg choose)^[n] st).unfin r &&
        !(stoppingRow cfg (((decodeStep cfg choose)^[n] st).ids r ++ [_]))) =
          false
      rw [ihu]
      rfl
    refine ⟨hu1, ?_, ?_, ?_⟩
    · rw [Function.iterate_succ_apply' (decodeStep cfg choose) (n + 1) st]
      show ((decodeStep cfg choose)^[n + 1] st).ids r ++
        [if ((decodeStep cfg choose)^[n + 1] st).unfin r then
          choose ((decodeStep cfg choose)^[n + 1] st) r else cfg.padId] = _
      rw [hu1]
      simp
    · rw [ihids, List.length_append, ihlen]
      simp only [List.length_singleton]
      omega
    · rw [Function.iterate_succ_apply' (decodeStep cfg choose) (n + 1) st]
      rfl

/-- Witness for C6 at a concrete single-row finished state. -/
theorem frozen_row_pad_forever_witness :
    frozenSt.unfin 0 = false ∧
    ((decodeStep kwCfg (fun _ _ => 1))^[1] frozenSt).unfin 0 = false ∧
    ((decodeStep kwCfg (fun _ _ => 1))^[2] frozenSt).ids 0 =
      ((decodeStep kwCfg (fun _ _ => 1))^[1] frozenSt).ids 0 ++
        [kwCfg.padId] :=
  ⟨rfl, (frozen_row_pad_forever kwCfg (fun _ _ => 1) frozenSt 0 rfl 1).1,
   (frozen_row_pad_forever kwCfg (fun _ _ => 1) frozenSt 0 rfl 1).2.1⟩

/-- C10: at the step where the prompt length equals `begin_index` (3), the
very first generated token is forced to be a timestamp: every entry below
`timestamp_begin = 50365` is masked, the no-timestamps token 50364 is
masked at every step, every entry above `timestamp_begin +
max_initial_timestamp_index = 50415` is masked, so with finite network
logits the arg-max of every row lies in `[50365, 50415]`. -/
theorem first_token_is_timestamp (ids : List ℕ) (c : Bool) (s : Row) (V : ℕ)
    (hlen : ids.length = 3) (hV : 50416 ≤ V) (hs : ∀ i, s i ≠ ⊥) :
    (∀ curLen2 seq2 c2,
      KW.processRow curLen2 seq2 c2 s KW.noTimestampsTokenId = ⊥) ∧
    (∀ i, i < 50365 →
      KW.processRow ids.length (ids.drop KW.beginIndex) c s i = ⊥) ∧
    (∀ i, 50415 < i →
      KW.processRow ids.length (ids.drop KW.beginIndex) c s i = ⊥) ∧
    50365 ≤
      argmaxRow (KW.processRow ids.length (ids.drop KW.beginIndex) c s) V ∧
    argmaxRow (KW.processRow ids.length (ids.drop KW.beginIndex) c s) V ≤
      50415 := by
  have hdrop : ids.drop KW.beginIndex = [] :=
    List.drop_eq_nil_of_le (le_of_eq hlen)
  rw [hlen, hdrop]
  have hlow : ∀ i, i < 50365 → KW.processRow 3 [] c s i = ⊥ :=
    fun i hi => KW.processRow_begin_low [] c s i hi
  have hhigh : ∀ i, 50415 < i → KW.processRow 3 [] c s i = ⊥ :=
    fun i hi => KW.processRow_begin_high [] c s i hi
  have hmid : KW.processRow 3 [] c s 50365 = s 50365 :=
    KW.processRow_begin_mid c s 50365 (by decide) (by decide)
  have hb : KW.processRow 3 [] c s
      (argmaxRow (KW.processRow 3 [] c s) V) ≠ ⊥ :=
    argmaxRow_ne_bot (KW.processRow 3 [] c s) V 50365 (by omega)
      (by rw [hmid]; exact hs 50365)
  refine ⟨fun a b c2 => KW.processRow_noTimestamps a b c2 s, hlow, hhigh,
    ?_, ?_⟩
  · by_contra hcon
    push_neg at hcon
    exact hb (hlow _ hcon)
  · by_contra hcon
    push_neg at hcon
    exact hb (hhigh _ hcon)

/-- Witness for C10: the decoder prompt `[50258, 50266, 50360]` and an
all-zeros (finite) logits row over a 50416-wide vocabulary. -/
theorem first_token_is_timestamp_witness :
    (([50258, 50266, 50360] : List ℕ).length = 3) ∧
    50365 ≤ argmaxRow
      (KW.processRow ([50258, 50266, 50360] : List ℕ).length
        (([50258, 50266, 50360] : List ℕ).drop KW.beginIndex) false zeroRow)
      50416 ∧
    argmaxRow
      (KW.processRow ([50258, 50266, 50360] : List ℕ).length
        (([50258, 50266, 50360] : List ℕ).drop KW.beginIndex) false zeroRow)
      50416 ≤ 50415 := by
  have h := first_token_is_timestamp [50258, 50266, 50360] false zeroRow
    50416 rfl (le_refl _) (fun i => WithBot.coe_ne_bot)
  exact ⟨rfl, h.2.2.2.1, h.2.2.2.2⟩

/-- C5: lines 310-316 of `greedy_search` — whenever the aggregated
log-probability mass over the timestamp tokens exceeds the best single
non-timestamp log-probability (`tsMassExceeds`, the evaluated comparison
`logsumexp(logprobs[timestamp_begin:]) > max(logprobs[:timestamp_begin])`,
whose per-row value the step's bit `c` carries), every non-timestamp score
entry of the row is set to `-inf`, so the arg-max — the chosen token — is
necessarily a timestamp token. -/
theorem timestamp_mass_forces_timestamp (V : ℕ) (s : Row) (c : Bool)
    (hc : c = true ↔ KW.tsMassExceeds V s) (h : KW.tsMassExceeds V s) :
    (∀ i, i < KW.timestampBegin → KW.lseMaskStep c s i = ⊥) ∧
    KW.timestampBegin ≤ argmaxRow (KW.lseMaskStep c s) V := by
  have hct : c = true := hc.mpr h
  have hmask : ∀ i, i < KW.timestampBegin → KW.lseMaskStep c s i = ⊥ := by
    intro i hi
    unfold KW.lseMaskStep
    rw [if_pos ⟨hi, hct⟩]
  refine ⟨hmask, ?_⟩
  obtain ⟨j, hj1, hj2, hj3⟩ := KW.exists_ts_ne_bot V s h.1
  have hPj : KW.lseMaskStep c s j = s j := by
    unfold KW.lseMaskStep
    rw [if_neg (fun hcon => absurd hcon.1 (not_lt.mpr hj1))]
  have hne2 : KW.lseMaskStep c s (argmaxRow (KW.lseMaskStep c s) V) ≠ ⊥ :=
    argmaxRow_ne_bot (KW.lseMaskStep c s) V j hj2 (by rw [hPj]; exact hj3)
  by_contra hlt
  push_neg at hlt
  exact hne2 (hmask _ hlt)

/-- Witness for C5: a row whose only unmasked entry is the timestamp 50365
with score 0 — the timestamp mass is `exp 0 > 0` while every text entry is
`-inf`, so the condition holds, the text range stays masked and the chosen
token is a timestamp. -/
theorem timestamp_mass_forces_timestamp_witness :
    KW.tsMassExceeds 50366 wRow ∧
    KW.lseMaskStep true wRow 50257 = ⊥ ∧
    KW.timestampBegin ≤ argmaxRow (KW.lseMaskStep true wRow) 50366 := by
  have hico : Finset.Ico KW.timestampBegin 50366 = {50365} := by decide
  have hmass : KW.tsMassExceeds 50366 wRow := by
    unfold KW.tsMassExceeds
    constructor
    · rw [hico, Finset.sum_singleton]
      have hw : wRow 50365 = ((0 : ℚ) : Score) := if_pos rfl
      rw [hw, KW.expSc_coe]
      exact Real.exp_pos _
    · have hsup : (Finset.range KW.timestampBegin).sup
          (fun i => (wRow i).map (fun (q : ℚ) =>
            (q : ℝ) -
              Real.log (∑ j ∈ Finset.range 50366, KW.expSc (wRow j)))) =
          (⊥ : WithBot ℝ) := by
        apply le_bot_iff.mp
        apply Finset.sup_le
        intro i hi
        rw [Finset.mem_range] at hi
        have hi2 : i < 50365 := hi
        have hwi : wRow i = ⊥ := if_neg (by omega)
        rw [hwi, WithBot.map_bot]
      rw [hsup]
      exact WithBot.bot_lt_coe _
  exact ⟨hmass,
    (timestamp_mass_forces_timestamp 50366 wRow true
      ⟨fun _ => hmass, fun _ => rfl⟩ hmass).1 50257 (by decide),
    (timestamp_mass_forces_timestamp 50366 wRow true
      ⟨fun _ => hmass, fun _ => rfl⟩ hmass).2⟩
